import Mathlib

/-!
Shallow embedding of the food-pile dataset pipeline (`src/index.js`).

The repository holds two concatenated variants of an interactive script:
  * variant 1 ("lighting" variant, Policy A): prompts for a lighting level,
    scans `frame_(\d+).jpg` to resume numbering, and appends a manifest row
    for every `.jpg` file currently in the target directory;
  * variant 2 ("Joe" variant, Policy B): no lighting prompt, scans
    `frameJoe_(\d+).jpg`, and appends manifest rows only for files whose
    parsed index exceeds the pre-extraction maximum.

File names are modelled as `List Char`; the manifest is a `String` (or
`Option String` when it may not exist yet).
-/

namespace Pipeline

/-! ### Filename pattern matching (the `f.match(regex)` calls) -/

/-- The numeric value of a decimal digit character (JS `parseInt` digit step). -/
def digitVal (c : Char) : Nat := c.toNat - 48

/-- JS `parseInt(ds, 10)` on a string of decimal digits. -/
def parseDigits (ds : List Char) : Nat :=
  ds.foldl (fun a c => a * 10 + digitVal c) 0

/-- Strip an expected literal pattern from the front of a name. -/
def stripPre : List Char → List Char → Option (List Char)
  | [], s => some s
  | _ :: _, [] => none
  | p :: ps, c :: cs => if c = p then stripPre ps cs else none

/-- Strip an expected literal pattern from the back of a name. -/
def stripSuf (suf s : List Char) : Option (List Char) :=
  (stripPre suf.reverse s.reverse).map List.reverse

/-- Model of `f.match(regex)` for the anchored regex
`^<pre>(\d+)\.jpg$`: returns the digit capture group exactly when the whole
name is the literal `pre`, then one or more decimal digits, then `.jpg`. -/
def matchFrame (pre f : List Char) : Option (List Char) :=
  (stripPre pre f).bind fun rest =>
    (stripSuf (".jpg".data) rest).bind fun ds =>
      if ds.isEmpty then none
      else if ds.all Char.isDigit then some ds else none

/-- The parsed index of a directory entry, when the entry matches. -/
def parsedIdx (pre f : List Char) : Option Nat :=
  (matchFrame pre f).map parseDigits

/-- The `maxNum` scan of both variants: fold over the directory listing,
keeping the largest parsed index of the entries that match the pattern
(`let maxNum = 0; for (const f of files) ... if (num > maxNum) maxNum = num`). -/
def maxNum (pre : List Char) (files : List (List Char)) : Nat :=
  files.foldl (fun acc f =>
    match matchFrame pre f with
    | some ds => if parseDigits ds > acc then parseDigits ds else acc
    | none => acc) 0

/-- `const startNumber = maxNum + 1; // if no files, this is 1`. -/
def startNumber (pre : List Char) (files : List (List Char)) : Nat :=
  maxNum pre files + 1

/-- Variant 1 pattern: `/^frame_(\d+)\.jpg$/`. -/
def preV1 : List Char := "frame_".data

/-- `const nameForImages = "Joe"` (variant 2). -/
def nameForImages : String := "Joe"

/-- Variant 2 pattern: ``new RegExp(`^frame${nameForImages}_(\\d+)\\.jpg$`)``. -/
def preV2 : List Char := ("frame" ++ nameForImages ++ "_").data

/-! ### Basic lemmas about the pattern matcher -/

theorem stripPre_append (p rest : List Char) : stripPre p (p ++ rest) = some rest := by
  induction p with
  | nil => rfl
  | cons c cs ih => simp [stripPre, ih]

theorem stripPre_eq_some (p : List Char) : ∀ f rest, stripPre p f = some rest → f = p ++ rest := by
  induction p with
  | nil => intro f rest h; simpa [stripPre] using h
  | cons c cs ih =>
    intro f rest h
    cases f with
    | nil => simp [stripPre] at h
    | cons b bs =>
      by_cases hb : b = c
      · subst hb
        simp only [stripPre, if_pos rfl] at h
        simpa using ih bs rest h
      · simp [stripPre, hb] at h

theorem stripSuf_append (suf xs : List Char) : stripSuf suf (xs ++ suf) = some xs := by
  unfold stripSuf
  rw [List.reverse_append, stripPre_append]
  simp

theorem stripSuf_eq_some (suf f xs : List Char) (h : stripSuf suf f = some xs) :
    f = xs ++ suf := by
  unfold stripSuf at h
  cases hp : stripPre suf.reverse f.reverse with
  | none => rw [hp] at h; simp at h
  | some r =>
    rw [hp] at h
    have hx : r.reverse = xs := by simpa using h
    have hf := stripPre_eq_some suf.reverse f.reverse r hp
    have hfr : f = r.reverse ++ suf := by
      have := congrArg List.reverse hf
      simpa [List.reverse_append] using this
    rw [hx] at hfr
    exact hfr

theorem matchFrame_of_shape (pre ds : List Char) (hne : ds ≠ [])
    (hdig : ds.all Char.isDigit = true) :
    matchFrame pre (pre ++ ds ++ ".jpg".data) = some ds := by
  unfold matchFrame
  rw [List.append_assoc, stripPre_append]
  simp only [Option.some_bind, stripSuf_append]
  rw [if_neg (by simpa [List.isEmpty_iff] using hne), if_pos hdig]

theorem matchFrame_eq_some (pre f ds : List Char) (h : matchFrame pre f = some ds) :
    f = pre ++ ds ++ ".jpg".data ∧ ds ≠ [] ∧ ds.all Char.isDigit = true := by
  unfold matchFrame at h
  cases hp : stripPre pre f with
  | none => rw [hp] at h; exact absurd h (by simp)
  | some rest =>
    rw [hp] at h
    simp only [Option.some_bind] at h
    cases hs : stripSuf (".jpg".data) rest with
    | none => rw [hs] at h; exact absurd h (by simp)
    | some ds2 =>
      rw [hs] at h
      simp only [Option.some_bind] at h
      by_cases he : ds2.isEmpty
      · rw [if_pos he] at h; exact absurd h (by simp)
      · rw [if_neg he] at h
        by_cases hd : ds2.all Char.isDigit
        · rw [if_pos hd] at h
          cases h
          refine ⟨?_, ?_, hd⟩
          · rw [stripPre_eq_some pre f rest hp, stripSuf_eq_some _ _ _ hs,
              List.append_assoc]
          · simpa [List.isEmpty_iff] using he
        · rw [if_neg hd] at h; exact absurd h (by simp)

/-! ### The `maxNum` fold as a maximum -/

/-- The index a directory entry contributes to the `maxNum` scan: its parsed
index when it matches the pattern, `0` otherwise. -/
def idxOrZero (pre f : List Char) : Nat :=
  match matchFrame pre f with
  | some ds => parseDigits ds
  | none => 0

theorem foldl_max_init {α : Type} (g : α → Nat) (l : List α) (a : Nat) :
    a ≤ l.foldl (fun acc x => max acc (g x)) a := by
  induction l generalizing a with
  | nil => exact Nat.le_refl a
  | cons x xs ih => exact le_trans (Nat.le_max_left a (g x)) (ih (max a (g x)))

theorem foldl_max_le_of_mem {α : Type} (g : α → Nat) (l : List α) (a : Nat)
    (x : α) (hx : x ∈ l) : g x ≤ l.foldl (fun acc y => max acc (g y)) a := by
  induction l generalizing a with
  | nil => cases hx
  | cons y ys ih =>
    rcases List.mem_cons.mp hx with h | h
    · subst h
      exact le_trans (Nat.le_max_right a (g x)) (foldl_max_init g ys (max a (g x)))
    · exact ih (max a (g y)) h

theorem foldl_max_shift {α : Type} (g : α → Nat) (l : List α) (a b : Nat) :
    l.foldl (fun acc x => max acc (g x)) (max a b) =
      max a (l.foldl (fun acc x => max acc (g x)) b) := by
  induction l generalizing b with
  | nil => rfl
  | cons x xs ih => simpa [Nat.max_assoc] using ih (max b (g x))

theorem maxNum_eq_foldl (pre : List Char) (files : List (List Char)) :
    maxNum pre files = files.foldl (fun acc f => max acc (idxOrZero pre f)) 0 := by
  unfold maxNum
  rw [List.foldl_ext]
  intro acc f _
  unfold idxOrZero
  cases matchFrame pre f with
  | none => simp
  | some ds => simp only []; split <;> omega

theorem le_maxNum_of_mem (pre : List Char) (files : List (List Char))
    (f : List Char) (hf : f ∈ files) : idxOrZero pre f ≤ maxNum pre files := by
  rw [maxNum_eq_foldl]
  exact foldl_max_le_of_mem _ files 0 f hf

theorem maxNum_append (pre : List Char) (xs ys : List (List Char)) :
    maxNum pre (xs ++ ys) = max (maxNum pre xs) (maxNum pre ys) := by
  simp only [maxNum_eq_foldl, List.foldl_append]
  have h := foldl_max_shift (idxOrZero pre) ys (xs.foldl (fun acc f => max acc (idxOrZero pre f)) 0) 0
  rw [← h]
  congr 1
  exact (Nat.max_eq_left (foldl_max_init _ xs 0)).symm

/-! ### Decimal digit strings (model of `%04d` output and `parseInt` input) -/

/-- A decimal digit as a character. -/
def digitChar : Nat → Char
  | 0 => '0'
  | 1 => '1'
  | 2 => '2'
  | 3 => '3'
  | 4 => '4'
  | 5 => '5'
  | 6 => '6'
  | 7 => '7'
  | 8 => '8'
  | 9 => '9'
  | _ => '0'

/-- Reference form of the decimal digit string (recursion on the value). -/
def digitsRec (n : Nat) : List Char :=
  if h : n < 10 then [digitChar n] else digitsRec (n / 10) ++ [digitChar (n % 10)]
termination_by n
decreasing_by exact Nat.div_lt_self (by omega) (by omega)

/-- Fuel-driven digit accumulator (structural recursion, so the kernel can
evaluate it on concrete inputs). -/
def natDigitsAux : Nat → Nat → List Char → List Char
  | 0, n, acc => digitChar n :: acc
  | fuel + 1, n, acc =>
    if n < 10 then digitChar n :: acc
    else natDigitsAux fuel (n / 10) (digitChar (n % 10) :: acc)

/-- The standard decimal digit string of a natural number (no leading zeros,
except that `0` prints as `"0"`): the digits `%d` prints. -/
def natDigits (n : Nat) : List Char := natDigitsAux n n []

theorem natDigitsAux_eq_digitsRec (fuel : Nat) : ∀ n acc, n ≤ fuel →
    natDigitsAux fuel n acc = digitsRec n ++ acc := by
  induction fuel with
  | zero =>
    intro n acc hn
    have h0 : n = 0 := Nat.le_zero.mp hn
    subst h0
    rw [natDigitsAux, digitsRec]
    rfl
  | succ m ih =>
    intro n acc hn
    rw [natDigitsAux, digitsRec]
    by_cases h : n < 10
    · rw [if_pos h, dif_pos h]; rfl
    · rw [if_neg h, dif_neg h,
        ih (n / 10) (digitChar (n % 10) :: acc)
          (by have hlt : n / 10 < n := Nat.div_lt_self (by omega) (by omega); omega),
        List.append_assoc]
      rfl

theorem natDigits_eq_digitsRec (n : Nat) : natDigits n = digitsRec n := by
  rw [natDigits, natDigitsAux_eq_digitsRec n n [] (Nat.le_refl n), List.append_nil]

theorem digitVal_digitChar (d : Nat) (h : d < 10) : digitVal (digitChar d) = d := by
  interval_cases d <;> rfl

theorem isDigit_digitChar (d : Nat) (h : d < 10) : (digitChar d).isDigit = true := by
  interval_cases d <;> rfl

theorem parseDigits_concat (xs : List Char) (c : Char) :
    parseDigits (xs ++ [c]) = parseDigits xs * 10 + digitVal c := by
  unfold parseDigits
  rw [List.foldl_append]
  rfl

theorem parseDigits_digitsRec (n : Nat) : parseDigits (digitsRec n) = n := by
  induction n using Nat.strong_induction_on with
  | _ n ih =>
    rw [digitsRec]
    by_cases h : n < 10
    · rw [dif_pos h]
      show 0 * 10 + digitVal (digitChar n) = n
      rw [digitVal_digitChar n h]; omega
    · rw [dif_neg h, parseDigits_concat,
        ih (n / 10) (Nat.div_lt_self (by omega) (by omega)),
        digitVal_digitChar (n % 10) (Nat.mod_lt _ (by omega))]
      omega

theorem parseDigits_natDigits (n : Nat) : parseDigits (natDigits n) = n := by
  rw [natDigits_eq_digitsRec, parseDigits_digitsRec]

theorem natDigits_ne_nil (n : Nat) : natDigits n ≠ [] := by
  rw [natDigits_eq_digitsRec, digitsRec]
  by_cases h : n < 10
  · rw [dif_pos h]; simp
  · rw [dif_neg h]; simp

theorem digitsRec_all_digit (n : Nat) : (digitsRec n).all Char.isDigit = true := by
  induction n using Nat.strong_induction_on with
  | _ n ih =>
    rw [digitsRec]
    by_cases h : n < 10
    · rw [dif_pos h]; simp [isDigit_digitChar n h]
    · rw [dif_neg h]
      simp only [List.all_append, Bool.and_eq_true]
      refine ⟨ih (n / 10) (Nat.div_lt_self (by omega) (by omega)), ?_⟩
      simp [isDigit_digitChar (n % 10) (Nat.mod_lt _ (by omega))]

theorem natDigits_all_digit (n : Nat) : (natDigits n).all Char.isDigit = true := by
  rw [natDigits_eq_digitsRec]
  exact digitsRec_all_digit n

/-- Zero-pad the decimal digits of `n` to width 4 (the `%04d` conversion of
the ffmpeg output pattern; wider numbers keep all their digits). -/
def pad4 (n : Nat) : List Char :=
  List.replicate (4 - (natDigits n).length) '0' ++ natDigits n

theorem parseDigits_zeroPad (k : Nat) (ds : List Char) :
    parseDigits (List.replicate k '0' ++ ds) = parseDigits ds := by
  induction k with
  | zero => rfl
  | succ m ih =>
    have h0 : parseDigits ('0' :: (List.replicate m '0' ++ ds)) =
        parseDigits (List.replicate m '0' ++ ds) := rfl
    rw [List.replicate_succ, List.cons_append, h0, ih]

theorem parseDigits_pad4 (n : Nat) : parseDigits (pad4 n) = n := by
  rw [pad4, parseDigits_zeroPad, parseDigits_natDigits]

theorem pad4_ne_nil (n : Nat) : pad4 n ≠ [] := by
  rw [pad4]
  intro h
  exact natDigits_ne_nil n (List.append_eq_nil.mp h).2

theorem pad4_all_digit (n : Nat) : (pad4 n).all Char.isDigit = true := by
  rw [pad4]
  simp only [List.all_append, Bool.and_eq_true]
  constructor
  · simp
  · exact natDigits_all_digit n

theorem pad4_injective (a b : Nat) (h : pad4 a = pad4 b) : a = b := by
  have := congrArg parseDigits h
  rwa [parseDigits_pad4, parseDigits_pad4] at this

/-! ### The frames the extraction writes -/

/-- One extracted frame file name: the literal pattern, the `%04d`-padded
index, then `.jpg`. -/
def frameFile (pre : List Char) (n : Nat) : List Char :=
  pre ++ pad4 n ++ ".jpg".data

/-- Modelled from the spec: the ffmpeg invocation writes its output to
`<pattern>%04d.jpg` with `-start_number startNumber`, so a run that produces
`k` frames deposits the files with padded indices
`start, start + 1, …, start + k - 1` into the target directory. -/
def extractedFrames (pre : List Char) (start k : Nat) : List (List Char) :=
  (List.range k).map (fun i => frameFile pre (start + i))

theorem matchFrame_frameFile (pre : List Char) (n : Nat) :
    matchFrame pre (frameFile pre n) = some (pad4 n) :=
  matchFrame_of_shape pre (pad4 n) (pad4_ne_nil n) (pad4_all_digit n)

theorem parsedIdx_frameFile (pre : List Char) (n : Nat) :
    parsedIdx pre (frameFile pre n) = some n := by
  rw [parsedIdx, matchFrame_frameFile]
  simp [parseDigits_pad4]

theorem frameFile_injective (pre : List Char) (a b : Nat)
    (h : frameFile pre a = frameFile pre b) : a = b := by
  unfold frameFile at h
  rw [List.append_assoc, List.append_assoc] at h
  have h1 := List.append_cancel_left h
  have h2 := List.append_cancel_right h1
  exact pad4_injective a b h2

/-! ### The path builder -/

/-- JS `s.trim()`: drop whitespace from both ends (structural model of the
library trim, evaluable by the kernel). -/
def trimChars (s : List Char) : List Char :=
  (((s.dropWhile Char.isWhitespace).reverse).dropWhile Char.isWhitespace).reverse

/-- JS `s.trim()` on strings. -/
def trimStr (s : String) : String := String.mk (trimChars s.data)

/-- `const rootDir = "Pile of food dataset"`. -/
def rootDir : String := "Pile of food dataset"

/-- Helper for `replaceFirstDot`: replace the first `'.'` of a character
list by `'_'`, leaving everything after it untouched. -/
def replaceFirstDotAux : List Char → List Char
  | [] => []
  | c :: cs => if c = '.' then '_' :: cs else c :: replaceFirstDotAux cs

/-- JS `s.replace(".", "_")` with a string pattern: only the FIRST `'.'`
is replaced. -/
def replaceFirstDot (s : String) : String := String.mk (replaceFirstDotAux s.data)

/-- JS `` `${s.charAt(0).toUpperCase()}${s.slice(1)}` ``: upper-case the
first character (for the ASCII choices `low`/`medium`/`high`). -/
def capitalize (s : String) : String :=
  match s.data with
  | [] => ""
  | c :: cs => String.mk (c.toUpper :: cs)

/-- `` const intervalDir = `${interval.trim()}Interval` ``. -/
def intervalDir (interval : String) : String := trimStr interval ++ "Interval"

/-- `const subDirName = subInterval.trim().replace(".", "_") + "Pounds"`. -/
def subDirName (subInterval : String) : String :=
  replaceFirstDot (trimStr subInterval) ++ "Pounds"

/-- `` const lightDirName = `${lightLevel.charAt(0).toUpperCase()}${lightLevel.slice(1)}Light` ``. -/
def lightDirName (lightLevel : String) : String := capitalize lightLevel ++ "Light"

/-- Variant 1 `path.join(rootDir, intervalDir, subDirName, lightDirName)`,
with `/` as the separator. -/
def targetDirV1 (interval subInterval lightLevel : String) : String :=
  rootDir ++ "/" ++ intervalDir interval ++ "/" ++ subDirName subInterval ++ "/" ++
    lightDirName lightLevel

/-- Variant 2 `path.join(rootDir, intervalDir, subDirName)`. -/
def targetDirV2 (interval subInterval : String) : String :=
  rootDir ++ "/" ++ intervalDir interval ++ "/" ++ subDirName subInterval

/-- `path.relative(rootDir, targetDir)` joined with `/` (variant 1). -/
def relDirV1 (interval subInterval lightLevel : String) : String :=
  intervalDir interval ++ "/" ++ subDirName subInterval ++ "/" ++ lightDirName lightLevel

/-- `path.relative(rootDir, targetDir)` joined with `/` (variant 2). -/
def relDirV2 (interval subInterval : String) : String :=
  intervalDir interval ++ "/" ++ subDirName subInterval

/-! ### Manifest generation -/

/-- `const headerLine = "image_path,interval,subinterval,light\n"` — the same
fixed header in both variants. -/
def headerLine : String := "image_path,interval,subinterval,light\n"

/-- The manifest content after the
`if (!(await fs.pathExists(manifestPath))) await fs.writeFile(manifestPath, headerLine)`
step: the header if the file did not exist, the old content otherwise. -/
def ensureManifest (m : Option String) : String :=
  match m with
  | none => headerLine
  | some s => s

/-- JS `s.toLowerCase()` (ASCII model, evaluable by the kernel). -/
def lowerStr (s : String) : String := String.mk (s.data.map Char.toLower)

/-- Variant 1 row filter: `f.toLowerCase().endsWith(".jpg")`. -/
def jpgFilter (f : List Char) : Bool :=
  (".jpg".data).isSuffixOf (f.map Char.toLower)

/-- One variant 1 CSV row:
`` `${relDir}/${f}`, interval.trim(), subInterval.trim(), lightLevelowerStr lCase() ``
joined with commas. -/
def csvLineV1 (relDir interval subInterval lightLevel : String) (f : List Char) : String :=
  relDir ++ "/" ++ String.mk f ++ "," ++ trimStr interval ++ "," ++ trimStr subInterval ++ "," ++
    lowerStr lightLevel

/-- Variant 1 `csvLines`: a row for every directory entry passing the
extension filter. -/
def csvLinesV1 (relDir interval subInterval lightLevel : String)
    (frames : List (List Char)) : List String :=
  (frames.filter jpgFilter).map (csvLineV1 relDir interval subInterval lightLevel)

/-- `csvLines.join("\n") + "\n"` — the chunk handed to `fs.appendFile`. -/
def appendPayload (lines : List String) : String :=
  String.intercalate "\n" lines ++ "\n"

/-- Result of one manifest-writing phase: the manifest content afterwards and
whether this run wrote the header line. -/
structure WriteResult where
  content : String
  wroteHeader : Bool

/-- Variant 1 manifest phase: ensure the manifest exists (writing the header
if not), then unconditionally append a row per `.jpg` entry. -/
def manifestStepV1 (m : Option String) (frames : List (List Char))
    (relDir interval subInterval lightLevel : String) : WriteResult :=
  { content := ensureManifest m ++
      appendPayload (csvLinesV1 relDir interval subInterval lightLevel frames)
  , wroteHeader := m.isNone }

/-- Variant 2 `newFiles` predicate:
`const m = f.match(regex); return m && parseInt(m[1], 10) > maxNum`. -/
def isNewFile (maxN : Nat) (f : List Char) : Bool :=
  match matchFrame preV2 f with
  | some ds => decide (parseDigits ds > maxN)
  | none => false

/-- Variant 2 `allFiles.filter(...)`. -/
def newFiles (maxN : Nat) (allFiles : List (List Char)) : List (List Char) :=
  allFiles.filter (isNewFile maxN)

/-- One variant 2 CSV row — no lighting column:
`` `${relDir}/${f}`, interval.trim(), subInterval.trim() ``. -/
def csvLineV2 (relDir interval subInterval : String) (f : List Char) : String :=
  relDir ++ "/" ++ String.mk f ++ "," ++ trimStr interval ++ "," ++ trimStr subInterval

/-- Variant 2 manifest phase: ensure the manifest exists, then append only
when at least one row qualifies (`if (csvLines.length) ... else` skip). -/
def manifestStepV2 (m : Option String) (maxN : Nat) (allFiles : List (List Char))
    (relDir interval subInterval : String) : WriteResult :=
  let csvLines := (newFiles maxN allFiles).map (csvLineV2 relDir interval subInterval)
  { content :=
      if csvLines.length ≠ 0 then ensureManifest m ++ appendPayload csvLines
      else ensureManifest m
  , wroteHeader := m.isNone }

/-! ### A whole variant 2 run (resume scan, extraction, manifest append) -/

/-- The target-directory listing after a variant 2 run that extracts `k`
frames: the old entries plus the frames ffmpeg wrote starting at
`maxNum + 1`. -/
def runV2Files (files : List (List Char)) (k : Nat) : List (List Char) :=
  files ++ extractedFrames preV2 (maxNum preV2 files + 1) k

/-- The files a variant 2 run appends rows for: the post-extraction listing
filtered against the pre-extraction `maxNum`. -/
def runV2NewFiles (files : List (List Char)) (k : Nat) : List (List Char) :=
  newFiles (maxNum preV2 files) (runV2Files files k)

/-- The CSV rows a variant 2 run appends. -/
def runV2Lines (files : List (List Char)) (k : Nat) (interval subInterval : String) :
    List String :=
  (runV2NewFiles files k).map (csvLineV2 (relDirV2 interval subInterval) interval subInterval)

/-- The frame indices the rows of a listing record (in listing order). -/
def recordedIdx (files : List (List Char)) : List Nat :=
  files.filterMap (parsedIdx preV2)

/-! ### Helper lemmas for the claim theorems -/

theorem maxNum_eq_filterMap (pre : List Char) (files : List (List Char)) :
    maxNum pre files = (files.filterMap (parsedIdx pre)).foldl (fun a n => max a n) 0 := by
  rw [maxNum_eq_foldl]
  suffices h : ∀ a : Nat, files.foldl (fun acc f => max acc (idxOrZero pre f)) a =
      (files.filterMap (parsedIdx pre)).foldl (fun x n => max x n) a from h 0
  induction files with
  | nil => intro a; rfl
  | cons f fs ih =>
    intro a
    rw [List.foldl_cons, List.filterMap_cons]
    cases hm : matchFrame pre f with
    | none =>
      have h1 : idxOrZero pre f = 0 := by unfold idxOrZero; rw [hm]
      have h2 : parsedIdx pre f = none := by unfold parsedIdx; rw [hm]; rfl
      simp only [h1, h2, Nat.max_zero]
      exact ih a
    | some ds =>
      have h1 : idxOrZero pre f = parseDigits ds := by unfold idxOrZero; rw [hm]
      have h2 : parsedIdx pre f = some (parseDigits ds) := by unfold parsedIdx; rw [hm]; rfl
      simp only [h1, h2, List.foldl_cons]
      exact ih (max a (parseDigits ds))

theorem isNewFile_iff (maxN : Nat) (f : List Char) :
    isNewFile maxN f = true ↔ ∃ n, parsedIdx preV2 f = some n ∧ maxN < n := by
  unfold isNewFile parsedIdx
  cases hm : matchFrame preV2 f with
  | none => simp
  | some ds => simp [Nat.lt_iff_add_one_le]

theorem isNewFile_of_mem_false (files : List (List Char)) (f : List Char)
    (hf : f ∈ files) : isNewFile (maxNum preV2 files) f = false := by
  unfold isNewFile
  cases hm : matchFrame preV2 f with
  | none => rfl
  | some ds =>
    have hle : parseDigits ds ≤ maxNum preV2 files := by
      simpa [idxOrZero, hm] using le_maxNum_of_mem preV2 files f hf
    simp only [decide_eq_false_iff_not]
    omega

theorem manifestStepV2_content (m : Option String) (maxN : Nat)
    (allFiles : List (List Char)) (r i s : String) :
    (manifestStepV2 m maxN allFiles r i s).content =
      if ((newFiles maxN allFiles).map (csvLineV2 r i s)).length ≠ 0
      then ensureManifest m ++ appendPayload ((newFiles maxN allFiles).map (csvLineV2 r i s))
      else ensureManifest m := rfl

/-! ### C1 -/

/-- C1: the Resume Calculator returns one plus the maximum numeric index
parsed from filenames matching the fixed pattern (literal pattern, decimal
index, `.jpg`); non-matching names are ignored, it returns 1 when nothing
matches (in particular on the empty directory), and parsing is agnostic of
the zero-padding width (`frame_0001.jpg, frame_0003.jpg, frame_0007.jpg`
yield 8). -/
theorem claim_C1_resume_calculator (pre : List Char) (files : List (List Char)) :
    startNumber pre files =
      (files.filterMap (parsedIdx pre)).foldl (fun a n => max a n) 0 + 1
    ∧ ((∀ f ∈ files, matchFrame pre f = none) → startNumber pre files = 1)
    ∧ startNumber preV1
        ["frame_0001.jpg".data, "frame_0003.jpg".data, "frame_0007.jpg".data] = 8
    ∧ startNumber preV1 [] = 1 := by
  refine ⟨by rw [startNumber, maxNum_eq_filterMap], ?_, by decide, by decide⟩
  intro hall
  have h0 : files.filterMap (parsedIdx pre) = [] := by
    rw [List.filterMap_eq_nil_iff]
    intro f hf
    unfold parsedIdx
    rw [hall f hf]
    rfl
  rw [startNumber, maxNum_eq_filterMap, h0]
  rfl

/-! ### C5 -/

theorem replaceFirstDotAux_no_dot (l : List Char) (h : '.' ∉ l) :
    replaceFirstDotAux l = l := by
  induction l with
  | nil => rfl
  | cons c cs ih =>
    rw [replaceFirstDotAux]
    rw [List.mem_cons, not_or] at h
    rw [if_neg (fun hc => h.1 hc.symm), ih h.2]

theorem replaceFirstDotAux_first (a b : List Char) (ha : '.' ∉ a) :
    replaceFirstDotAux (a ++ '.' :: b) = a ++ '_' :: b := by
  induction a with
  | nil => simp [replaceFirstDotAux]
  | cons c cs ih =>
    rw [List.mem_cons, not_or] at ha
    rw [List.cons_append, replaceFirstDotAux, if_neg (fun hc => ha.1 hc.symm),
      ih ha.2, List.cons_append]

/-- C5: the Path Builder is a deterministic pure function: root dataset
directory, then `{trimmed interval}Interval`, then `{trimmed sub-interval
with the first '.' replaced by '_'}Pounds`, then (for the lighting variant)
`{lighting with the first character upper-cased}Light`; identical inputs
yield the identical path. -/
theorem claim_C5_path_builder (interval subInterval lightLevel : String) :
    targetDirV1 interval subInterval lightLevel =
      rootDir ++ "/" ++ (trimStr interval ++ "Interval") ++ "/" ++
        (replaceFirstDot (trimStr subInterval) ++ "Pounds") ++ "/" ++
        (capitalize lightLevel ++ "Light")
    ∧ targetDirV2 interval subInterval =
      rootDir ++ "/" ++ (trimStr interval ++ "Interval") ++ "/" ++
        (replaceFirstDot (trimStr subInterval) ++ "Pounds")
    ∧ (∀ a b : List Char, (trimStr subInterval).data = a ++ '.' :: b → '.' ∉ a →
        (replaceFirstDot (trimStr subInterval)).data = a ++ '_' :: b)
    ∧ ('.' ∉ (trimStr subInterval).data →
        replaceFirstDot (trimStr subInterval) = trimStr subInterval)
    ∧ (∀ c cs, lightLevel.data = c :: cs →
        (capitalize lightLevel).data = c.toUpper :: cs)
    ∧ (∀ i2 s2 l2 : String, interval = i2 → subInterval = s2 → lightLevel = l2 →
        targetDirV1 interval subInterval lightLevel = targetDirV1 i2 s2 l2) := by
  refine ⟨rfl, rfl, ?_, ?_, ?_, ?_⟩
  · intro a b hab ha
    rw [replaceFirstDot]
    show replaceFirstDotAux (trimStr subInterval).data = a ++ '_' :: b
    rw [hab, replaceFirstDotAux_first a b ha]
  · intro h
    rw [replaceFirstDot, replaceFirstDotAux_no_dot _ h]
  · intro c cs h
    unfold capitalize
    rw [h]
  · intro i2 s2 l2 h1 h2 h3
    rw [h1, h2, h3]

/-! ### C9 -/

/-- C9: in the lighting variant, when no entry of the target directory ends
in `.jpg` at manifest-writing time the run still appends a single newline
(the empty batch joined and suffixed with `"\n"`), instead of skipping the
write. -/
theorem claim_C9_blank_line (m : Option String) (frames : List (List Char))
    (relDir interval subInterval lightLevel : String)
    (h : frames.filter jpgFilter = []) :
    (manifestStepV1 m frames relDir interval subInterval lightLevel).content =
      ensureManifest m ++ "\n" := by
  unfold manifestStepV1 csvLinesV1
  rw [h]
  rfl

/-- Witness for C9 at a directory holding only a non-`.jpg` file, against an
existing manifest. -/
theorem claim_C9_blank_line_witness :
    (manifestStepV1 (some "image_path,interval,subinterval,light\n")
        ["notes.txt".data] "1-2Interval/1_3Pounds/LowLight" "1-2" "1.3" "low").content =
      ensureManifest (some "image_path,interval,subinterval,light\n") ++ "\n" :=
  claim_C9_blank_line (some "image_path,interval,subinterval,light\n")
    ["notes.txt".data] "1-2Interval/1_3Pounds/LowLight" "1-2" "1.3" "low" (by decide)

/-! ### C10 -/

/-- C10: in the lighting variant a directory entry gets a manifest row
exactly when its name ends in `.jpg` case-insensitively; entries that do not
match the `frame_<digits>.jpg` resume pattern (so the Resume Calculator
ignores them) still get rows, including names ending in `.JPG`. -/
theorem claim_C10_extension_only (frames : List (List Char)) (f : List Char)
    (relDir interval subInterval lightLevel : String) :
    (f ∈ frames.filter jpgFilter ↔ f ∈ frames ∧ jpgFilter f = true)
    ∧ (f ∈ frames → jpgFilter f = true →
        csvLineV1 relDir interval subInterval lightLevel f ∈
          csvLinesV1 relDir interval subInterval lightLevel frames)
    ∧ jpgFilter "photo.JPG".data = true
    ∧ matchFrame preV1 "photo.JPG".data = none
    ∧ csvLineV1 relDir interval subInterval lightLevel "photo.JPG".data ∈
        csvLinesV1 relDir interval subInterval lightLevel ["photo.JPG".data] := by
  refine ⟨List.mem_filter, ?_, by decide, by decide, ?_⟩
  · intro hf hjpg
    exact List.mem_map_of_mem _ (List.mem_filter.mpr ⟨hf, hjpg⟩)
  · exact List.mem_map_of_mem _ (List.mem_filter.mpr ⟨List.mem_singleton_self _, by decide⟩)

/-! ### C6 -/

/-- C6: the manifest is created with the fixed header row exactly when it
does not already exist, and the header is written exactly once across runs:
a run against an existing manifest never writes it again — in particular the
run right after any run (whose manifest then exists) does not. Both variants. -/
theorem claim_C6_header_once (m : Option String)
    (frames frames2 allFiles allFiles2 : List (List Char)) (maxN maxN2 : Nat)
    (r i s l r2 i2 s2 l2 : String) :
    ((manifestStepV1 m frames r i s l).wroteHeader = true ↔ m = none)
    ∧ (m = none → ∃ t, (manifestStepV1 m frames r i s l).content = headerLine ++ t)
    ∧ (manifestStepV1 (some (manifestStepV1 m frames r i s l).content)
        frames2 r2 i2 s2 l2).wroteHeader = false
    ∧ ((manifestStepV2 m maxN allFiles r i s).wroteHeader = true ↔ m = none)
    ∧ (m = none →
        ∃ t, ((manifestStepV2 m maxN allFiles r i s).content).data = headerLine.data ++ t)
    ∧ (manifestStepV2 (some (manifestStepV2 m maxN allFiles r i s).content)
        maxN2 allFiles2 r2 i2 s2).wroteHeader = false := by
  refine ⟨?_, ?_, rfl, ?_, ?_, rfl⟩
  · simp [manifestStepV1, Option.isNone_iff_eq_none]
  · intro hm
    subst hm
    exact ⟨_, rfl⟩
  · simp [manifestStepV2, Option.isNone_iff_eq_none]
  · intro hm
    subst hm
    rw [manifestStepV2_content]
    by_cases hlen :
        ((newFiles maxN allFiles).map (csvLineV2 r i s)).length ≠ 0
    · rw [if_pos hlen]
      exact ⟨(appendPayload ((newFiles maxN allFiles).map (csvLineV2 r i s))).data,
        by simp [ensureManifest, String.data_append]⟩
    · rw [if_neg hlen]
      exact ⟨[], by simp [ensureManifest]⟩

/-- Witness for C6 at concrete inputs (fresh manifest, one qualifying file). -/
theorem claim_C6_header_once_witness :
    ((manifestStepV1 none ["a.jpg".data] "r" "1-2" "1.3" "low").wroteHeader = true ↔
      (none : Option String) = none)
    ∧ ((none : Option String) = none →
        ∃ t, (manifestStepV1 none ["a.jpg".data] "r" "1-2" "1.3" "low").content =
          headerLine ++ t)
    ∧ (manifestStepV1
        (some (manifestStepV1 none ["a.jpg".data] "r" "1-2" "1.3" "low").content)
        ["b.jpg".data] "r" "1-2" "1.3" "low").wroteHeader = false
    ∧ ((manifestStepV2 none 0 ["frameJoe_0001.jpg".data] "r" "1-2" "1.3").wroteHeader = true ↔
        (none : Option String) = none)
    ∧ ((none : Option String) = none →
        ∃ t, ((manifestStepV2 none 0 ["frameJoe_0001.jpg".data] "r" "1-2" "1.3").content).data =
          headerLine.data ++ t)
    ∧ (manifestStepV2
        (some (manifestStepV2 none 0 ["frameJoe_0001.jpg".data] "r" "1-2" "1.3").content)
        1 ["frameJoe_0001.jpg".data] "r" "1-2" "1.3").wroteHeader = false :=
  claim_C6_header_once none ["a.jpg".data] ["b.jpg".data] ["frameJoe_0001.jpg".data]
    ["frameJoe_0001.jpg".data] 0 1 "r" "1-2" "1.3" "low" "r" "1-2" "1.3" "low"

/-! ### C8 -/

/-- C8: every run only appends: after the optional header creation, the
characters already in the manifest stay an unchanged prefix of the new
content, and no row is rewritten or deleted. Both variants, stated for an
existing manifest `s0` and for a fresh one. -/
theorem claim_C8_append_only (m : Option String) (frames allFiles : List (List Char))
    (maxN : Nat) (r i s l : String) :
    (∃ t, ((manifestStepV1 m frames r i s l).content).data =
      (ensureManifest m).data ++ t)
    ∧ (∀ s0, m = some s0 → ∃ t, ((manifestStepV1 m frames r i s l).content).data =
        s0.data ++ t)
    ∧ (∃ t, ((manifestStepV2 m maxN allFiles r i s).content).data =
        (ensureManifest m).data ++ t)
    ∧ (∀ s0, m = some s0 → ∃ t, ((manifestStepV2 m maxN allFiles r i s).content).data =
        s0.data ++ t) := by
  have h1 : ∃ t, ((manifestStepV1 m frames r i s l).content).data =
      (ensureManifest m).data ++ t :=
    ⟨(appendPayload (csvLinesV1 r i s l frames)).data,
      by simp [manifestStepV1, String.data_append]⟩
  have h2 : ∃ t, ((manifestStepV2 m maxN allFiles r i s).content).data =
      (ensureManifest m).data ++ t := by
    rw [manifestStepV2_content]
    by_cases hlen : ((newFiles maxN allFiles).map (csvLineV2 r i s)).length ≠ 0
    · rw [if_pos hlen]
      exact ⟨(appendPayload ((newFiles maxN allFiles).map (csvLineV2 r i s))).data,
        by simp [String.data_append]⟩
    · rw [if_neg hlen]
      exact ⟨[], by simp⟩
  refine ⟨h1, ?_, h2, ?_⟩
  · intro s0 hm
    subst hm
    exact h1
  · intro s0 hm
    subst hm
    exact h2

/-! ### C7 -/

/-- C7: the manifest header is always
`image_path,interval,subinterval,light` (four comma-separated columns); a
lighting-variant data row carries the lowercase lighting value as its fourth
field, while a lighting-free-variant row omits the light value and has only
three fields — a column-count mismatch with the header. Field counts are
stated as comma counts, for comma-free field values. -/
theorem claim_C7_schema (r i s l : String) (f : List Char)
    (hr : ',' ∉ r.data) (hf : ',' ∉ f)
    (hi : ',' ∉ (trimStr i).data) (hs : ',' ∉ (trimStr s).data)
    (hl : ',' ∉ (lowerStr l).data) :
    headerLine = "image_path,interval,subinterval,light" ++ "\n"
    ∧ ("image_path,interval,subinterval,light".data).count ',' + 1 = 4
    ∧ (csvLineV1 r i s l f).data.count ',' + 1 = 4
    ∧ csvLineV1 r i s l f =
        (r ++ "/" ++ String.mk f ++ "," ++ trimStr i ++ "," ++ trimStr s) ++ "," ++ lowerStr l
    ∧ (csvLineV2 r i s f).data.count ',' + 1 = 3
    ∧ csvLineV2 r i s f = r ++ "/" ++ String.mk f ++ "," ++ trimStr i ++ "," ++ trimStr s
    ∧ (3 : Nat) ≠ 4 := by
  have hr2 : r.data.count ',' = 0 := List.count_eq_zero.mpr hr
  have hf2 : f.count ',' = 0 := List.count_eq_zero.mpr hf
  have hi2 : (trimStr i).data.count ',' = 0 := List.count_eq_zero.mpr hi
  have hs2 : (trimStr s).data.count ',' = 0 := List.count_eq_zero.mpr hs
  have hl2 : (lowerStr l).data.count ',' = 0 := List.count_eq_zero.mpr hl
  refine ⟨rfl, by decide, ?_, rfl, ?_, rfl, by decide⟩
  · simp [csvLineV1, String.data_append, List.count_append, hr2, hf2, hi2, hs2, hl2]
  · simp [csvLineV2, String.data_append, List.count_append, hr2, hf2, hi2, hs2]

/-- Witness for C7 at concrete comma-free field values. -/
theorem claim_C7_schema_witness :
    headerLine = "image_path,interval,subinterval,light" ++ "\n"
    ∧ ("image_path,interval,subinterval,light".data).count ',' + 1 = 4
    ∧ (csvLineV1 "1-2Interval/1_3Pounds" "1-2" "1.3" "low" "frame_0001.jpg".data).data.count ',' + 1 = 4
    ∧ csvLineV1 "1-2Interval/1_3Pounds" "1-2" "1.3" "low" "frame_0001.jpg".data =
        ("1-2Interval/1_3Pounds" ++ "/" ++ String.mk "frame_0001.jpg".data ++ "," ++
          trimStr "1-2" ++ "," ++ trimStr "1.3") ++ "," ++ lowerStr "low"
    ∧ (csvLineV2 "1-2Interval/1_3Pounds" "1-2" "1.3" "frame_0001.jpg".data).data.count ',' + 1 = 3
    ∧ csvLineV2 "1-2Interval/1_3Pounds" "1-2" "1.3" "frame_0001.jpg".data =
        "1-2Interval/1_3Pounds" ++ "/" ++ String.mk "frame_0001.jpg".data ++ "," ++
          trimStr "1-2" ++ "," ++ trimStr "1.3"
    ∧ (3 : Nat) ≠ 4 :=
  claim_C7_schema "1-2Interval/1_3Pounds" "1-2" "1.3" "low" "frame_0001.jpg".data
    (by decide) (by decide) (by decide) (by decide) (by decide)

/-! ### C2 -/

/-- C2: under Policy B a file is appended to the manifest iff it matches the
frame pattern and its parsed index strictly exceeds the pre-extraction
maximum captured by the Resume Calculator; every file already present before
the run fails the filter. -/
theorem claim_C2_policyB_filter (d0 ext : List (List Char)) (f : List Char) :
    (f ∈ newFiles (maxNum preV2 d0) (d0 ++ ext) ↔
      f ∈ d0 ++ ext ∧ ∃ n, parsedIdx preV2 f = some n ∧ maxNum preV2 d0 < n)
    ∧ (f ∈ d0 → f ∉ newFiles (maxNum preV2 d0) (d0 ++ ext)) := by
  constructor
  · rw [newFiles, List.mem_filter, isNewFile_iff]
  · intro hf hmem
    rw [newFiles, List.mem_filter] at hmem
    rw [isNewFile_of_mem_false d0 f hf] at hmem
    exact absurd hmem.2 (by simp)

/-! ### C3 -/

/-- C3: under Policy A every `.jpg` file currently present gets a manifest
row on every run, so two consecutive runs against the same non-empty target
directory (whose listing only grows by the frames each run extracts)
duplicate the rows of pre-existing files: such a row occurs at least twice
in the appended batches. -/
theorem claim_C3_policyA_rescan (d0 ext1 ext2 : List (List Char))
    (r i s l : String) (f : List Char) (hf : f ∈ d0) (hjpg : jpgFilter f = true) :
    csvLineV1 r i s l f ∈ csvLinesV1 r i s l (d0 ++ ext1)
    ∧ csvLineV1 r i s l f ∈ csvLinesV1 r i s l (d0 ++ ext1 ++ ext2)
    ∧ 2 ≤ (csvLinesV1 r i s l (d0 ++ ext1) ++
        csvLinesV1 r i s l (d0 ++ ext1 ++ ext2)).count (csvLineV1 r i s l f) := by
  have hm1 : csvLineV1 r i s l f ∈ csvLinesV1 r i s l (d0 ++ ext1) :=
    List.mem_map_of_mem _
      (List.mem_filter.mpr ⟨List.mem_append_left ext1 hf, hjpg⟩)
  have hm2 : csvLineV1 r i s l f ∈ csvLinesV1 r i s l (d0 ++ ext1 ++ ext2) :=
    List.mem_map_of_mem _
      (List.mem_filter.mpr
        ⟨List.mem_append_left ext2 (List.mem_append_left ext1 hf), hjpg⟩)
  refine ⟨hm1, hm2, ?_⟩
  rw [List.count_append]
  have c1 := List.count_pos_iff_mem.mpr hm1
  have c2 := List.count_pos_iff_mem.mpr hm2
  omega

/-- Witness for C3: a pre-existing frame of an earlier run is re-appended by
both of the next two runs. -/
theorem claim_C3_policyA_rescan_witness :
    csvLineV1 "r" "1-2" "1.3" "low" "frame_0001.jpg".data ∈
      csvLinesV1 "r" "1-2" "1.3" "low" ["frame_0001.jpg".data, "frame_0002.jpg".data]
    ∧ csvLineV1 "r" "1-2" "1.3" "low" "frame_0001.jpg".data ∈
      csvLinesV1 "r" "1-2" "1.3" "low"
        ["frame_0001.jpg".data, "frame_0002.jpg".data, "frame_0003.jpg".data]
    ∧ 2 ≤ (csvLinesV1 "r" "1-2" "1.3" "low" ["frame_0001.jpg".data, "frame_0002.jpg".data] ++
        csvLinesV1 "r" "1-2" "1.3" "low"
          ["frame_0001.jpg".data, "frame_0002.jpg".data, "frame_0003.jpg".data]).count
        (csvLineV1 "r" "1-2" "1.3" "low" "frame_0001.jpg".data) :=
  claim_C3_policyA_rescan ["frame_0001.jpg".data] ["frame_0002.jpg".data]
    ["frame_0003.jpg".data] "r" "1-2" "1.3" "low" "frame_0001.jpg".data
    (List.mem_singleton_self _) (by decide)

/-! ### C4: lemmas about whole variant 2 runs -/

theorem idxOrZero_frameFile (n : Nat) :
    idxOrZero preV2 (frameFile preV2 n) = n := by
  simp [idxOrZero, matchFrame_frameFile, parseDigits_pad4]

theorem isNewFile_frameFile (m n : Nat) (h : m < n) :
    isNewFile m (frameFile preV2 n) = true := by
  simp only [isNewFile, matchFrame_frameFile, parseDigits_pad4]
  simpa using h

theorem extractedFrames_succ (pre : List Char) (s k : Nat) :
    extractedFrames pre s (k + 1) =
      extractedFrames pre s k ++ [frameFile pre (s + k)] := by
  unfold extractedFrames
  rw [List.range_succ, List.map_append]
  rfl

theorem maxNum_singleton (pre : List Char) (f : List Char) :
    maxNum pre [f] = idxOrZero pre f := by
  rw [maxNum_eq_foldl, List.foldl_cons, List.foldl_nil]
  omega

theorem maxNum_extracted (s k : Nat) :
    maxNum preV2 (extractedFrames preV2 s k) = if k = 0 then 0 else s + k - 1 := by
  induction k with
  | zero => rfl
  | succ n ih =>
    rw [extractedFrames_succ, maxNum_append, ih, maxNum_singleton, idxOrZero_frameFile]
    by_cases hn : n = 0
    · subst hn; simp
    · rw [if_neg hn, if_neg (Nat.succ_ne_zero n)]
      omega

theorem maxNum_runV2Files (files : List (List Char)) (k : Nat) :
    maxNum preV2 (runV2Files files k) = maxNum preV2 files + k := by
  rw [runV2Files, maxNum_append, maxNum_extracted]
  by_cases hk : k = 0
  · subst hk; simp
  · rw [if_neg hk]; omega

theorem runV2NewFiles_eq (files : List (List Char)) (k : Nat) :
    runV2NewFiles files k = extractedFrames preV2 (maxNum preV2 files + 1) k := by
  unfold runV2NewFiles newFiles runV2Files
  rw [List.filter_append]
  have h1 : files.filter (isNewFile (maxNum preV2 files)) = [] := by
    rw [List.filter_eq_nil_iff]
    intro f hf
    simp [isNewFile_of_mem_false files f hf]
  have h2 : (extractedFrames preV2 (maxNum preV2 files + 1) k).filter
      (isNewFile (maxNum preV2 files)) =
      extractedFrames preV2 (maxNum preV2 files + 1) k := by
    rw [List.filter_eq_self]
    intro f hf
    rcases List.mem_map.mp hf with ⟨j, hj, rfl⟩
    exact isNewFile_frameFile _ _ (by omega)
  rw [h1, h2, List.nil_append]

theorem runV2Lines_length (files : List (List Char)) (k : Nat)
    (interval subInterval : String) :
    (runV2Lines files k interval subInterval).length = k := by
  rw [runV2Lines, List.length_map, runV2NewFiles_eq, extractedFrames,
    List.length_map, List.length_range]

theorem range_shift_append (s k1 k2 : Nat) :
    (List.range k1).map (fun i => s + i) ++ (List.range k2).map (fun i => s + k1 + i) =
      (List.range (k1 + k2)).map (fun i => s + i) := by
  rw [List.range_add, List.map_append, List.map_map]
  congr 1
  have hc : (fun i => s + k1 + i) = ((fun i => s + i) ∘ fun x => k1 + x) := by
    funext j
    show s + k1 + j = s + (k1 + j)
    omega
  rw [hc]

theorem extractedFrames_eq_map (pre : List Char) (s k : Nat) :
    extractedFrames pre s k = ((List.range k).map (fun i => s + i)).map (frameFile pre) := by
  unfold extractedFrames
  rw [List.map_map]
  rfl

theorem extracted_append (s k1 k2 : Nat) :
    extractedFrames preV2 s k1 ++ extractedFrames preV2 (s + k1) k2 =
      extractedFrames preV2 s (k1 + k2) := by
  rw [extractedFrames_eq_map, extractedFrames_eq_map, extractedFrames_eq_map,
    ← List.map_append, range_shift_append]

theorem csvLineV2_inj (r i s : String) (f g : List Char)
    (h : csvLineV2 r i s f = csvLineV2 r i s g) : f = g := by
  have hd := congrArg String.data h
  simp only [csvLineV2, String.data_append, List.append_assoc] at hd
  have h1 := List.append_cancel_left hd
  have h2 := List.append_cancel_left h1
  exact List.append_cancel_right h2

theorem recordedIdx_extracted (s k : Nat) :
    recordedIdx (extractedFrames preV2 s k) = (List.range k).map (fun i => s + i) := by
  unfold recordedIdx extractedFrames
  rw [List.filterMap_map]
  have hc : (parsedIdx preV2 ∘ fun i => frameFile preV2 (s + i)) =
      (some ∘ fun i => s + i) := by
    funext j
    exact parsedIdx_frameFile preV2 (s + j)
  rw [hc, congrFun (List.filterMap_eq_map (fun i => s + i)) (List.range k)]

theorem pairwise_lt_range_shift (s k : Nat) :
    List.Pairwise (· < ·) ((List.range k).map (fun i => s + i)) :=
  List.Pairwise.map _ (fun a b hab => by omega) (List.pairwise_lt_range k)

/-- C4: two consecutive Policy B runs into the same target directory, the
first extracting `k1` frames and the second `k2`: the first run appends
exactly `k1` rows and the second exactly `k2`, the two appended batches hold
no duplicate row, the frame indices recorded across the two runs are
strictly increasing, and (when rows qualify) the manifest is exactly the old
content plus the batch. -/
theorem claim_C4_policyB_two_runs (d0 : List (List Char)) (k1 k2 : Nat)
    (i s : String) :
    (runV2Lines d0 k1 i s).length = k1
    ∧ (runV2Lines (runV2Files d0 k1) k2 i s).length = k2
    ∧ (runV2Lines d0 k1 i s ++ runV2Lines (runV2Files d0 k1) k2 i s).Nodup
    ∧ List.Pairwise (· < ·)
        (recordedIdx (runV2NewFiles d0 k1) ++
          recordedIdx (runV2NewFiles (runV2Files d0 k1) k2))
    ∧ (k1 ≠ 0 → ∀ m : Option String,
        (manifestStepV2 m (maxNum preV2 d0) (runV2Files d0 k1)
          (relDirV2 i s) i s).content =
        ensureManifest m ++ appendPayload (runV2Lines d0 k1 i s)) := by
  have hnew1 : runV2NewFiles d0 k1 =
      extractedFrames preV2 (maxNum preV2 d0 + 1) k1 := runV2NewFiles_eq d0 k1
  have hnew2 : runV2NewFiles (runV2Files d0 k1) k2 =
      extractedFrames preV2 (maxNum preV2 d0 + k1 + 1) k2 := by
    rw [runV2NewFiles_eq, maxNum_runV2Files]
  have hshift : maxNum preV2 d0 + k1 + 1 = (maxNum preV2 d0 + 1) + k1 := by omega
  refine ⟨runV2Lines_length d0 k1 i s, runV2Lines_length (runV2Files d0 k1) k2 i s,
    ?_, ?_, ?_⟩
  · rw [runV2Lines, runV2Lines, hnew1, hnew2, ← List.map_append, hshift,
      extracted_append, extractedFrames_eq_map, List.map_map, List.map_map]
    apply List.Nodup.map
    · intro a b hab
      have hf := csvLineV2_inj (relDirV2 i s) i s _ _ hab
      have hff := frameFile_injective preV2 _ _ hf
      have hab2 : maxNum preV2 d0 + 1 + a = maxNum preV2 d0 + 1 + b := hff
      omega
    · exact List.nodup_range (k1 + k2)
  · rw [hnew1, hnew2, recordedIdx_extracted, recordedIdx_extracted, hshift,
      range_shift_append]
    exact pairwise_lt_range_shift _ _
  · intro hk1 m
    rw [manifestStepV2_content]
    have hlen : ((newFiles (maxNum preV2 d0) (runV2Files d0 k1)).map
        (csvLineV2 (relDirV2 i s) i s)).length ≠ 0 := by
      have := runV2Lines_length d0 k1 i s
      rw [runV2Lines, runV2NewFiles] at this
      rw [this]
      exact hk1
    rw [if_pos hlen]
    rfl

end Pipeline
